import Mathlib

/-!
# Verification of the order-service core (rust-IAB)

Shallow embedding of the repository's core modules:

* `src/models.rs` — the `Order` entity;
* `src/order_dtos.rs` — request DTOs and their field validation
  (the `validator` derive: `length(min = 1)` on `customer` and `items`,
  and the anchored regex `^(pending|shipped|delivered|cancelled)$` on
  `status`);
* `src/db.rs` — the in-memory store (`HashMap<Uuid, Order>` behind a
  lock) with `create_order`, `get_order`, `update_status`,
  `delete_order`; the hash map is modelled as an association list with
  lookup/insert/remove/in-place-update, each operation returning its
  result together with the post-state;
* `src/errors.rs` — `ApiError` and its `IntoResponse` projection to an
  HTTP status code and a JSON body.

Randomness (`Uuid::new_v4`) is made explicit: the freshly generated
identifier is an argument of `create_order`.  Locks serialise each
operation in the source, so each operation is a pure state transformer
here.
-/

namespace OrderService

/-- 128-bit v4 UUIDs, modelled as natural numbers: the claims depend only
on identifier equality, never on the bit pattern. -/
abbrev Uuid := Nat

/-- `src/models.rs`: the domain entity `Order`. -/
structure Order where
  id : Uuid
  customer : String
  items : List String
  status : String
  deriving Repr, DecidableEq

/-- `src/order_dtos.rs`: request DTO for creating an order. -/
structure CreateOrderDto where
  customer : String
  items : List String
  deriving Repr, DecidableEq

/-- `src/order_dtos.rs`: request DTO for updating an order's status. -/
structure UpdateStatusDto where
  status : String
  deriving Repr, DecidableEq

/-- `src/order_dtos.rs`: the response DTO `OrderResponseDto`. -/
structure OrderResponseDto where
  id : Uuid
  customer : String
  items : List String
  status : String
  deriving Repr, DecidableEq

/-- `impl From<Order> for OrderResponseDto` in `src/order_dtos.rs`:
field-for-field projection. -/
def OrderResponseDto.from (o : Order) : OrderResponseDto :=
  { id := o.id, customer := o.customer, items := o.items, status := o.status }

/-- The `validator` crate's `ValidationErrors`, flattened to what the code
consumes: per-field lists of optional messages (field order is the hash
map's, modelled as list order; `ValidationError.message` is an
`Option<Cow<str>>`, hence `Option String`). -/
abbrev ValidationErrors := List (String × List (Option String))

/-- `src/errors.rs`: the `ApiError` enum. -/
inductive ApiError where
  | NotFound
  | BadRequest (msg : String)
  | Validation (errs : ValidationErrors)
  | Internal
  deriving Repr, DecidableEq

instance {ε α : Type} [DecidableEq ε] [DecidableEq α] :
    DecidableEq (Except ε α) := fun a b =>
  match a, b with
  | .error x, .error y =>
      if h : x = y then .isTrue (by rw [h])
      else .isFalse (fun hh => h (by cases hh; rfl))
  | .ok x, .ok y =>
      if h : x = y then .isTrue (by rw [h])
      else .isFalse (fun hh => h (by cases hh; rfl))
  | .error _, .ok _ => .isFalse (fun hh => by cases hh)
  | .ok _, .error _ => .isFalse (fun hh => by cases hh)

/-- `STATUS_REGEX` in `src/order_dtos.rs`:
`^(pending|shipped|delivered|cancelled)$` is anchored at both ends, so a
string matches exactly when it equals one of the four alternatives. -/
def statusRegexMatch (s : String) : Bool :=
  s = "pending" || s = "shipped" || s = "delivered" || s = "cancelled"

/-- `CreateOrderDto::validate` from the `#[derive(Validate)]` attributes in
`src/order_dtos.rs`: `customer` needs `length(min = 1)` with message
"customer name must not be empty"; `items` needs `length(min = 1)` with
message "at least one item required".  The `validator` crate measures a
`String` by its character count, matching `String.length`.  All failing
fields are reported together. -/
def CreateOrderDto.validate (d : CreateOrderDto) : Except ValidationErrors Unit :=
  let errs : ValidationErrors :=
    (if d.customer.length ≥ 1 then [] else
      [("customer", [some "customer name must not be empty"])]) ++
    (if d.items.length ≥ 1 then [] else
      [("items", [some "at least one item required"])])
  if errs = [] then .ok () else .error errs

/-- `UpdateStatusDto::validate` from `src/order_dtos.rs`:
`#[validate(regex(path = "STATUS_REGEX", message = "invalid status"))]`. -/
def UpdateStatusDto.validate (d : UpdateStatusDto) : Except ValidationErrors Unit :=
  if statusRegexMatch d.status then .ok ()
  else .error [("status", [some "invalid status"])]

/-! ## The store

`src/db.rs` keeps a `HashMap<Uuid, Order>`; modelled as an association
list whose keys are unique along every reachable state.  The hash map's
operations become: `lookupAL` (`get`), `insertAL` (`insert`, replacing an
existing binding), `removeAL` (`remove`, returning the removed value),
and `updateStatusAL` (the `get_mut` + field assignment in
`update_status`, returning the updated order). -/

/-- The in-memory store: `HashMap<Uuid, Order>` as an association list. -/
abbrev Store := List (Uuid × Order)

/-- `HashMap::get`. -/
def lookupAL : Store → Uuid → Option Order
  | [], _ => none
  | (k, o) :: rest, id => if k = id then some o else lookupAL rest id

/-- `HashMap::insert`: replaces the binding when the key is present,
otherwise adds one. -/
def insertAL : Store → Uuid → Order → Store
  | [], k, v => [(k, v)]
  | (k', o) :: rest, k, v =>
      if k' = k then (k, v) :: rest else (k', o) :: insertAL rest k v

/-- `HashMap::remove`: the removed value (if any) and the remaining map. -/
def removeAL : Store → Uuid → Option Order × Store
  | [], _ => (none, [])
  | (k, o) :: rest, id =>
      if k = id then (some o, rest)
      else
        let r := removeAL rest id
        (r.1, (k, o) :: r.2)

/-- The `get_mut` + `order.status = data.status` step of `update_status`:
overwrites the `status` field of the order bound to `id` in place and
returns a clone of the updated order. -/
def updateStatusAL : Store → Uuid → String → Option Order × Store
  | [], _, _ => (none, [])
  | (k, o) :: rest, id, st =>
      if k = id then (some { o with status := st }, (k, { o with status := st }) :: rest)
      else
        let r := updateStatusAL rest id st
        (r.1, (k, o) :: r.2)

/-- `create_order` in `src/db.rs`.  `fresh` is the value produced by
`Uuid::new_v4()`.  Returns the handler's result together with the store
after the call. -/
def create_order (db : Store) (fresh : Uuid) (data : CreateOrderDto) :
    Except ApiError OrderResponseDto × Store :=
  match data.validate with
  | .error e => (.error (.Validation e), db)
  | .ok _ =>
      let order : Order :=
        { id := fresh, customer := data.customer, items := data.items,
          status := "pending" }
      (.ok (OrderResponseDto.from order), insertAL db order.id order)

/-- `get_order` in `src/db.rs`. -/
def get_order (db : Store) (id : Uuid) : Except ApiError OrderResponseDto :=
  match lookupAL db id with
  | some o => .ok (OrderResponseDto.from o)
  | none => .error .NotFound

/-- `update_status` in `src/db.rs`: validate first, then mutate the
`status` field of the order under `id` if present. -/
def update_status (db : Store) (id : Uuid) (data : UpdateStatusDto) :
    Except ApiError OrderResponseDto × Store :=
  match data.validate with
  | .error e => (.error (.Validation e), db)
  | .ok _ =>
      let r := updateStatusAL db id data.status
      match r.1 with
      | some o => (.ok (OrderResponseDto.from o), r.2)
      | none => (.error .NotFound, db)

/-- `delete_order` in `src/db.rs`. -/
def delete_order (db : Store) (id : Uuid) : Except ApiError Unit × Store :=
  let r := removeAL db id
  match r.1 with
  | some _ => (.ok (), r.2)
  | none => (.error .NotFound, db)

/-! ## HTTP projection of errors (`src/errors.rs`) -/

/-- JSON values, as far as the error bodies need them. -/
inductive Json where
  | null
  | str (s : String)
  | arr (elems : List Json)
  | obj (fields : List (String × Json))

/-- Serialisation of `ErrorResponse { message, details }` from
`src/errors.rs`: `details: Option<T>` becomes `null` or the value. -/
def errorResponse (message : String) (details : Json) : Json :=
  .obj [("message", .str message), ("details", details)]

/-- `impl IntoResponse for ApiError` in `src/errors.rs`, as the pair of
HTTP status code and JSON body.  The `Validation` arm rebuilds the
`field_errors()` map: for each field, the messages that are present
(`filter_map` over `e.message`). -/
def ApiError.into_response : ApiError → Nat × Json
  | .NotFound => (404, errorResponse "Order not found" .null)
  | .BadRequest msg => (400, errorResponse ("Invalid input: " ++ msg) .null)
  | .Validation errs =>
      (400, errorResponse "Validation failed"
        (.obj (errs.map fun p =>
          (p.1, .arr (p.2.filterMap fun m => m.map Json.str)))))
  | .Internal => (500, errorResponse "Internal server error" .null)

/-- The messages actually carried for one field: those that are present. -/
def fieldMessages (msgs : List (Option String)) : List String :=
  msgs.filterMap id

/-- The HTTP projection as §4.1 of the specification words it: `NotFound`
is 404 with body `{"message":"Order not found","details":null}`;
`BadRequest(m)` is 400 with message `"Invalid input: <m>"` and null
details; `Validation(fe)` is 400 with message `"Validation failed"` and
details the object mapping each field to the array of its messages;
`Internal` is 500 with message `"Internal server error"` and null
details. -/
def specHttpProjection : ApiError → Nat × Json
  | .NotFound =>
      (404, .obj [("message", .str "Order not found"), ("details", .null)])
  | .BadRequest m =>
      (400, .obj [("message", .str ("Invalid input: " ++ m)), ("details", .null)])
  | .Validation fe =>
      (400, .obj [("message", .str "Validation failed"),
        ("details", .obj (fe.map fun p =>
          (p.1, .arr ((fieldMessages p.2).map Json.str))))])
  | .Internal =>
      (500, .obj [("message", .str "Internal server error"), ("details", .null)])

/-! ## Sequences of mutating operations (for the store invariant) -/

/-- One state-mutating store call, with the randomness of `create_order`
(the fresh v4 UUID) made an explicit field. -/
inductive Op where
  | create (fresh : Uuid) (dto : CreateOrderDto)
  | updateStatus (id : Uuid) (dto : UpdateStatusDto)
  | deleteOrder (id : Uuid)
  deriving Repr

/-- The store after one call (the result is discarded). -/
def applyOp (db : Store) : Op → Store
  | .create fresh dto => (create_order db fresh dto).2
  | .updateStatus id dto => (update_status db id dto).2
  | .deleteOrder id => (delete_order db id).2

/-- The store reached from the empty map by a sequence of calls. -/
def runOps (ops : List Op) : Store :=
  ops.foldl applyOp []

/-- The §3 data-model invariant for one stored order. -/
def validOrder (o : Order) : Prop :=
  o.customer ≠ "" ∧ o.items ≠ [] ∧
    o.status ∈ ["pending", "shipped", "delivered", "cancelled"]

instance (o : Order) : Decidable (validOrder o) := by
  unfold validOrder; infer_instance

/-! ## Lemmas about the association-list operations -/

theorem lookupAL_insertAL_self (db : Store) (k : Uuid) (v : Order) :
    lookupAL (insertAL db k v) k = some v := by
  induction db with
  | nil => simp [insertAL, lookupAL]
  | cons p rest ih =>
      obtain ⟨k', o⟩ := p
      by_cases h : k' = k <;> simp [insertAL, lookupAL, h, ih]

theorem lookupAL_insertAL_ne (db : Store) (k k' : Uuid) (v : Order)
    (h : k' ≠ k) : lookupAL (insertAL db k v) k' = lookupAL db k' := by
  induction db with
  | nil =>
      simp only [insertAL, lookupAL, if_neg (Ne.symm h)]
  | cons p rest ih =>
      obtain ⟨k₀, o⟩ := p
      simp only [insertAL]
      by_cases h₀ : k₀ = k
      · have hk : ¬ (k₀ = k') := fun hh => h (hh.symm.trans h₀)
        have hk' : ¬ (k = k') := fun hh => h hh.symm
        rw [if_pos h₀]
        simp only [lookupAL, if_neg hk, if_neg hk']
      · rw [if_neg h₀]
        simp only [lookupAL]
        by_cases h₁ : k₀ = k' <;> simp [h₁, ih]

theorem updateStatusAL_fst (db : Store) (id : Uuid) (st : String) :
    (updateStatusAL db id st).1
      = (lookupAL db id).map (fun o => { o with status := st }) := by
  induction db with
  | nil => simp [updateStatusAL, lookupAL]
  | cons p rest ih =>
      obtain ⟨k, o⟩ := p
      by_cases h : k = id <;> simp [updateStatusAL, lookupAL, h, ih]

theorem lookupAL_updateStatusAL_self (db : Store) (id : Uuid) (st : String) :
    lookupAL (updateStatusAL db id st).2 id
      = (lookupAL db id).map (fun o => { o with status := st }) := by
  induction db with
  | nil => simp [updateStatusAL, lookupAL]
  | cons p rest ih =>
      obtain ⟨k, o⟩ := p
      by_cases h : k = id <;> simp [updateStatusAL, lookupAL, h, ih]

theorem lookupAL_updateStatusAL_ne (db : Store) (id k : Uuid) (st : String)
    (h : k ≠ id) :
    lookupAL (updateStatusAL db id st).2 k = lookupAL db k := by
  induction db with
  | nil => simp [updateStatusAL, lookupAL]
  | cons p rest ih =>
      obtain ⟨k₀, o⟩ := p
      simp only [updateStatusAL]
      by_cases h₀ : k₀ = id
      · have hk : ¬ (k₀ = k) := fun hh => h (hh.symm.trans h₀)
        rw [if_pos h₀]
        simp only [lookupAL, if_neg hk]
      · rw [if_neg h₀]
        simp only [lookupAL]
        by_cases h₁ : k₀ = k <;> simp [h₁, ih]

theorem mem_insertAL (db : Store) (k : Uuid) (v : Order) (p : Uuid × Order)
    (h : p ∈ insertAL db k v) : p = (k, v) ∨ p ∈ db := by
  induction db with
  | nil =>
      rw [show insertAL [] k v = [(k, v)] from rfl, List.mem_singleton] at h
      exact Or.inl h
  | cons q rest ih =>
      obtain ⟨k', o⟩ := q
      by_cases h₀ : k' = k
      · rw [show insertAL ((k', o) :: rest) k v
            = if k' = k then (k, v) :: rest else (k', o) :: insertAL rest k v
            from rfl, if_pos h₀] at h
        rcases List.mem_cons.mp h with h | h
        · exact Or.inl h
        · exact Or.inr (List.mem_cons_of_mem _ h)
      · rw [show insertAL ((k', o) :: rest) k v
            = if k' = k then (k, v) :: rest else (k', o) :: insertAL rest k v
            from rfl, if_neg h₀] at h
        rcases List.mem_cons.mp h with h | h
        · exact Or.inr (List.mem_cons.mpr (Or.inl h))
        · rcases ih h with h' | h'
          · exact Or.inl h'
          · exact Or.inr (List.mem_cons_of_mem _ h')

theorem mem_updateStatusAL (db : Store) (id : Uuid) (st : String)
    (p : Uuid × Order) (h : p ∈ (updateStatusAL db id st).2) :
    p ∈ db ∨ ∃ q ∈ db, p = (q.1, { q.2 with status := st }) := by
  induction db with
  | nil => simp [updateStatusAL] at h
  | cons q rest ih =>
      obtain ⟨k, o⟩ := q
      by_cases h₀ : k = id
      · rw [show (updateStatusAL ((k, o) :: rest) id st).2
            = (if k = id
                then (some { o with status := st },
                  (k, { o with status := st }) :: rest)
                else ((updateStatusAL rest id st).1,
                  (k, o) :: (updateStatusAL rest id st).2)).2
            from rfl, if_pos h₀] at h
        rcases List.mem_cons.mp h with h | h
        · exact Or.inr ⟨(k, o), List.mem_cons_self _ _, h⟩
        · exact Or.inl (List.mem_cons_of_mem _ h)
      · rw [show (updateStatusAL ((k, o) :: rest) id st).2
            = (if k = id
                then (some { o with status := st },
                  (k, { o with status := st }) :: rest)
                else ((updateStatusAL rest id st).1,
                  (k, o) :: (updateStatusAL rest id st).2)).2
            from rfl, if_neg h₀] at h
        rcases List.mem_cons.mp h with h | h
        · exact Or.inl (List.mem_cons.mpr (Or.inl h))
        · rcases ih h with h' | ⟨q', hq', hp⟩
          · exact Or.inl (List.mem_cons_of_mem _ h')
          · exact Or.inr ⟨q', List.mem_cons_of_mem _ hq', hp⟩

theorem mem_removeAL (db : Store) (id : Uuid) (p : Uuid × Order)
    (h : p ∈ (removeAL db id).2) : p ∈ db := by
  induction db with
  | nil => simp [removeAL] at h
  | cons q rest ih =>
      obtain ⟨k, o⟩ := q
      by_cases h₀ : k = id
      · rw [show (removeAL ((k, o) :: rest) id).2
            = (if k = id then (some o, rest)
                else ((removeAL rest id).1, (k, o) :: (removeAL rest id).2)).2
            from rfl, if_pos h₀] at h
        exact List.mem_cons_of_mem _ h
      · rw [show (removeAL ((k, o) :: rest) id).2
            = (if k = id then (some o, rest)
                else ((removeAL rest id).1, (k, o) :: (removeAL rest id).2)).2
            from rfl, if_neg h₀] at h
        rcases List.mem_cons.mp h with h | h
        · exact List.mem_cons.mpr (Or.inl h)
        · exact List.mem_cons_of_mem _ (ih h)

/-! ## Lemmas about validation -/

theorem createValidate_ok_of (d : CreateOrderDto)
    (hc : d.customer.length ≥ 1) (hi : d.items.length ≥ 1) :
    d.validate = .ok () := by
  simp [CreateOrderDto.validate, hc, hi]

theorem createValidate_ok_iff (d : CreateOrderDto) :
    d.validate = .ok () ↔ d.customer.length ≥ 1 ∧ d.items.length ≥ 1 := by
  constructor
  · intro h
    by_cases hc : d.customer.length ≥ 1 <;> by_cases hi : d.items.length ≥ 1 <;>
      simp [CreateOrderDto.validate, hc, hi] at h ⊢
  · intro ⟨hc, hi⟩
    exact createValidate_ok_of d hc hi

theorem updateValidate_ok_iff (d : UpdateStatusDto) :
    d.validate = .ok () ↔ statusRegexMatch d.status = true := by
  by_cases h : statusRegexMatch d.status <;>
    simp [UpdateStatusDto.validate, h]

theorem statusRegexMatch_iff_mem (s : String) :
    statusRegexMatch s = true
      ↔ s ∈ ["pending", "shipped", "delivered", "cancelled"] := by
  simp only [statusRegexMatch, Bool.or_eq_true, decide_eq_true_eq,
    List.mem_cons, List.mem_singleton, List.not_mem_nil, or_false]
  tauto

theorem one_le_length_of_ne_empty (s : String) (h : s ≠ "") : 1 ≤ s.length := by
  cases s with
  | mk data =>
      cases data with
      | nil => exact absurd rfl h
      | cons c cs => simp [String.length]

theorem ne_empty_of_one_le_length (s : String) (h : 1 ≤ s.length) : s ≠ "" :=
  fun hs => absurd (hs ▸ h) (by decide)

theorem filterMap_map_json (l : List (Option String)) :
    l.filterMap (fun m => m.map Json.str) = (l.filterMap id).map Json.str := by
  induction l with
  | nil => rfl
  | cons a t ih => cases a <;> simp [ih]

/-- The §3 invariant, lifted to a whole store. -/
def storeInvariant (db : Store) : Prop := ∀ p ∈ db, validOrder p.2

theorem applyOp_preserves (db : Store) (hdb : storeInvariant db) (op : Op) :
    storeInvariant (applyOp db op) := by
  cases op with
  | create fresh dto =>
      cases hval : dto.validate with
      | error e => simpa [applyOp, create_order, hval] using hdb
      | ok u =>
          obtain ⟨hc, hi⟩ := (createValidate_ok_iff dto).mp (by cases u; exact hval)
          intro p hp
          simp only [applyOp, create_order, hval] at hp
          rcases mem_insertAL _ _ _ _ hp with h | h
          · subst h
            exact ⟨ne_empty_of_one_le_length _ hc,
              List.ne_nil_of_length_pos hi, by simp⟩
          · exact hdb p h
  | updateStatus id dto =>
      cases hval : dto.validate with
      | error e => simpa [applyOp, update_status, hval] using hdb
      | ok u =>
          have hre : statusRegexMatch dto.status = true :=
            (updateValidate_ok_iff dto).mp (by cases u; exact hval)
          intro p hp
          simp only [applyOp, update_status, hval] at hp
          cases hr : (updateStatusAL db id dto.status).1 with
          | none => rw [hr] at hp; exact hdb p hp
          | some o =>
              rw [hr] at hp
              rcases mem_updateStatusAL _ _ _ _ hp with h | ⟨q, hq, hpq⟩
              · exact hdb p h
              · obtain ⟨h1, h2, _⟩ := hdb q hq
                subst hpq
                exact ⟨h1, h2, (statusRegexMatch_iff_mem _).mp hre⟩
  | deleteOrder id =>
      intro p hp
      simp only [applyOp, delete_order] at hp
      cases hr : (removeAL db id).1 with
      | none => rw [hr] at hp; exact hdb p hp
      | some o => rw [hr] at hp; exact hdb p (mem_removeAL _ _ _ hp)

theorem foldl_applyOp_preserves (ops : List Op) (db : Store)
    (hdb : storeInvariant db) : storeInvariant (ops.foldl applyOp db) := by
  induction ops generalizing db with
  | nil => exact hdb
  | cons op rest ih => exact ih _ (applyOp_preserves db hdb op)

theorem update_status_present (db : Store) (id : Uuid) (dto : UpdateStatusDto)
    (o : Order) (ho : lookupAL db id = some o)
    (hre : statusRegexMatch dto.status = true) :
    update_status db id dto
      = (.ok (OrderResponseDto.from { o with status := dto.status }),
         (updateStatusAL db id dto.status).2) := by
  have hval : dto.validate = .ok () := (updateValidate_ok_iff dto).mpr hre
  have hfst : (updateStatusAL db id dto.status).1
      = some { o with status := dto.status } := by
    rw [updateStatusAL_fst, ho]; rfl
  simp [update_status, hval, hfst]

/-- C1: for every `CreateOrderDto` with non-empty `customer` and non-empty
`items`, `create_order` succeeds, and `get_order` at the returned id
succeeds and returns an order agreeing with the dto on `customer` and
`items`, with `status = "pending"` and the same id as the create
response. -/
theorem claim_create_then_get (db : Store) (fresh : Uuid) (dto : CreateOrderDto)
    (hc : dto.customer ≠ "") (hi : dto.items ≠ []) :
    ∃ resp db',
      create_order db fresh dto = (.ok resp, db')
      ∧ get_order db' resp.id = .ok resp
      ∧ resp.customer = dto.customer
      ∧ resp.items = dto.items
      ∧ resp.status = "pending" := by
  have hval : dto.validate = .ok () :=
    createValidate_ok_of dto (one_le_length_of_ne_empty _ hc)
      (List.length_pos.mpr hi)
  refine ⟨OrderResponseDto.from
      { id := fresh, customer := dto.customer, items := dto.items,
        status := "pending" },
    insertAL db fresh
      { id := fresh, customer := dto.customer, items := dto.items,
        status := "pending" },
    ?_, ?_, rfl, rfl, rfl⟩
  · simp [create_order, hval]
  · simp [get_order, OrderResponseDto.from, lookupAL_insertAL_self]

theorem claim_create_then_get_witness :
    ∃ resp db',
      create_order [] 0 { customer := "Alice", items := ["A", "B"] }
          = (.ok resp, db')
      ∧ get_order db' resp.id = .ok resp
      ∧ resp.customer = "Alice"
      ∧ resp.items = ["A", "B"]
      ∧ resp.status = "pending" :=
  claim_create_then_get [] 0 { customer := "Alice", items := ["A", "B"] }
    (by decide) (by decide)

/-- C2: starting from the empty store, after any sequence of
`create_order`, `update_status` and `delete_order` calls, every stored
order has a non-empty `customer`, a non-empty `items` list, and a
`status` among the four permitted values. -/
theorem claim_store_invariant (ops : List Op) (p : Uuid × Order)
    (hp : p ∈ runOps ops) :
    p.2.customer ≠ "" ∧ p.2.items ≠ []
      ∧ p.2.status ∈ ["pending", "shipped", "delivered", "cancelled"] :=
  foldl_applyOp_preserves ops []
    (fun q hq => absurd hq (List.not_mem_nil q)) p hp

theorem claim_store_invariant_witness :
    ((0, ({ id := 0, customer := "A", items := ["x"],
            status := "shipped" } : Order))
        ∈ runOps [Op.create 0 { customer := "A", items := ["x"] },
                  Op.updateStatus 0 { status := "shipped" }])
    ∧ ("A" : String) ≠ "" ∧ (["x"] : List String) ≠ []
    ∧ ("shipped" : String) ∈ ["pending", "shipped", "delivered", "cancelled"] :=
  have hp : (0, ({ id := 0, customer := "A", items := ["x"],
                   status := "shipped" } : Order))
        ∈ runOps [Op.create 0 { customer := "A", items := ["x"] },
                  Op.updateStatus 0 { status := "shipped" }] := by decide
  ⟨hp, claim_store_invariant _ _ hp⟩

/-- C3: the HTTP projection of every `ApiError` value is exactly the one
the specification prescribes: 404 / 400 / 400 / 500 with the four literal
bodies, `Validation` carrying per-field message arrays. -/
theorem claim_error_projection (e : ApiError) :
    e.into_response = specHttpProjection e := by
  cases e with
  | NotFound => rfl
  | BadRequest m => rfl
  | Internal => rfl
  | Validation errs =>
      simp [ApiError.into_response, specHttpProjection, errorResponse,
        fieldMessages, filterMap_map_json]

/-- C4: `update_status` with a status outside the four permitted values
returns the `Validation` error (message "invalid status" on field
"status") and leaves the store unchanged, for every store and every id —
in particular for an absent id the result is `Validation`, not
`NotFound`. -/
theorem claim_update_invalid_status (db : Store) (id : Uuid)
    (dto : UpdateStatusDto)
    (h : dto.status ∉ ["pending", "shipped", "delivered", "cancelled"]) :
    update_status db id dto
      = (.error (.Validation [("status", [some "invalid status"])]), db) := by
  have hre : statusRegexMatch dto.status = false := by
    cases hb : statusRegexMatch dto.status
    · rfl
    · exact absurd ((statusRegexMatch_iff_mem _).mp hb) h
  have hval : dto.validate
      = .error [("status", [some "invalid status"])] := by
    simp [UpdateStatusDto.validate, hre]
  simp [update_status, hval]

theorem claim_update_invalid_status_witness :
    (("queued" : String) ∉ ["pending", "shipped", "delivered", "cancelled"])
    ∧ update_status [] 0 { status := "queued" }
        = (.error (.Validation [("status", [some "invalid status"])]), []) :=
  ⟨by decide, claim_update_invalid_status [] 0 { status := "queued" } (by decide)⟩

/-- C5: for an id present in the store and a valid `UpdateStatusDto`,
`update_status` replaces only the `status` field of the order under that
id — its `id`, `customer` and `items` fields are kept — and every entry
under any other key is unchanged. -/
theorem claim_update_status_frame (db : Store) (id : Uuid)
    (dto : UpdateStatusDto) (o : Order) (ho : lookupAL db id = some o)
    (hv : dto.status ∈ ["pending", "shipped", "delivered", "cancelled"]) :
    lookupAL (update_status db id dto).2 id
        = some { id := o.id, customer := o.customer, items := o.items,
                 status := dto.status }
    ∧ ∀ k, k ≠ id →
        lookupAL (update_status db id dto).2 k = lookupAL db k := by
  have hre := (statusRegexMatch_iff_mem dto.status).mpr hv
  have h2 : (update_status db id dto).2 = (updateStatusAL db id dto.status).2 := by
    rw [update_status_present db id dto o ho hre]
  rw [h2]
  constructor
  · rw [lookupAL_updateStatusAL_self, ho]; rfl
  · intro k hk
    exact lookupAL_updateStatusAL_ne db id k dto.status hk

theorem claim_update_status_frame_witness :
    lookupAL (update_status
        [(5, { id := 5, customer := "C", items := ["i"], status := "pending" })]
        5 { status := "shipped" }).2 5
      = some { id := 5, customer := "C", items := ["i"], status := "shipped" }
    ∧ ∀ k, k ≠ 5 →
        lookupAL (update_status
          [(5, { id := 5, customer := "C", items := ["i"],
                 status := "pending" })]
          5 { status := "shipped" }).2 k
        = lookupAL
            [(5, { id := 5, customer := "C", items := ["i"],
                   status := "pending" })] k :=
  claim_update_status_frame
    [(5, { id := 5, customer := "C", items := ["i"], status := "pending" })]
    5 { status := "shipped" }
    { id := 5, customer := "C", items := ["i"], status := "pending" }
    (by decide) (by decide)

/-- C6: when validation fails, the store is untouched: `create_order`
with an invalid dto and `update_status` with an invalid dto both return
the store exactly as it was. -/
theorem claim_validation_failure_no_mutation (db : Store) (fresh id : Uuid)
    (cdto : CreateOrderDto) (udto : UpdateStatusDto)
    (ec eu : ValidationErrors)
    (hc : cdto.validate = .error ec) (hu : udto.validate = .error eu) :
    (create_order db fresh cdto).2 = db
    ∧ (update_status db id udto).2 = db := by
  constructor
  · simp [create_order, hc]
  · simp [update_status, hu]

theorem claim_validation_failure_no_mutation_witness :
    (create_order
        [(3, { id := 3, customer := "C", items := ["i"], status := "pending" })]
        9 { customer := "", items := ["A"] }).2
      = [(3, { id := 3, customer := "C", items := ["i"], status := "pending" })]
    ∧ (update_status
        [(3, { id := 3, customer := "C", items := ["i"], status := "pending" })]
        3 { status := "queued" }).2
      = [(3, { id := 3, customer := "C", items := ["i"],
               status := "pending" })] :=
  claim_validation_failure_no_mutation
    [(3, { id := 3, customer := "C", items := ["i"], status := "pending" })]
    9 3 { customer := "", items := ["A"] } { status := "queued" }
    [("customer", [some "customer name must not be empty"])]
    [("status", [some "invalid status"])]
    (by decide) (by decide)

/-- C7: for every order present in the store — whatever its current
status — and every permitted status `s`, `update_status` succeeds, the
returned projection has `status = s`, and a subsequent `get_order` on the
same id also returns `status = s`. -/
theorem claim_update_status_all_transitions (db : Store) (id : Uuid)
    (o : Order) (s : String) (ho : lookupAL db id = some o)
    (hs : s ∈ ["pending", "shipped", "delivered", "cancelled"]) :
    ∃ resp db', update_status db id { status := s } = (.ok resp, db')
      ∧ resp.status = s
      ∧ ∃ r, get_order db' id = .ok r ∧ r.status = s := by
  have hre := (statusRegexMatch_iff_mem s).mpr hs
  refine ⟨OrderResponseDto.from { o with status := s },
    (updateStatusAL db id s).2,
    update_status_present db id { status := s } o ho hre, rfl,
    OrderResponseDto.from { o with status := s }, ?_, rfl⟩
  have hl : lookupAL (updateStatusAL db id s).2 id
      = some { o with status := s } := by
    rw [lookupAL_updateStatusAL_self, ho]; rfl
  simp [get_order, hl]

theorem claim_update_status_all_transitions_witness :
    ∃ resp db', update_status
        [(1, { id := 1, customer := "C", items := ["i"],
               status := "cancelled" })]
        1 { status := "delivered" } = (.ok resp, db')
      ∧ resp.status = "delivered"
      ∧ ∃ r, get_order db' 1 = .ok r ∧ r.status = "delivered" :=
  claim_update_status_all_transitions
    [(1, { id := 1, customer := "C", items := ["i"], status := "cancelled" })]
    1 { id := 1, customer := "C", items := ["i"], status := "cancelled" }
    "delivered" (by decide) (by decide)

/-- C8: `UpdateStatusDto` validation accepts a status exactly when it is
one of the four literal strings (case-sensitive, no surrounding
whitespace), and any rejection carries the message "invalid status" on
the "status" field. -/
theorem claim_status_validation_characterisation (dto : UpdateStatusDto) :
    (dto.validate = .ok ()
      ↔ dto.status ∈ ["pending", "shipped", "delivered", "cancelled"])
    ∧ (dto.validate = .ok ()
      ∨ dto.validate = .error [("status", [some "invalid status"])]) := by
  constructor
  · exact (updateValidate_ok_iff dto).trans (statusRegexMatch_iff_mem dto.status)
  · cases hb : statusRegexMatch dto.status
    · right; simp [UpdateStatusDto.validate, hb]
    · left; exact (updateValidate_ok_iff dto).mpr hb

/-- C9 as stated is false: `HashMap::insert` replaces the binding at an
existing key, so when the fresh id collides, `create_order` overwrites
the previously stored order.  Concretely, with an order stored under key
0 and a colliding fresh id 0, the old order ("Alice") is gone and the new
one ("Bob") is stored. -/
theorem claim_create_no_overwrite_counterexample :
    lookupAL (create_order
        [(0, { id := 0, customer := "Alice", items := ["A"],
               status := "pending" })]
        0 { customer := "Bob", items := ["B"] }).2 0
      = some { id := 0, customer := "Bob", items := ["B"], status := "pending" }
    ∧ ¬ (lookupAL (create_order
        [(0, { id := 0, customer := "Alice", items := ["A"],
               status := "pending" })]
        0 { customer := "Bob", items := ["B"] }).2 0
      = some { id := 0, customer := "Alice", items := ["A"],
               status := "pending" }) := by
  decide

/-- C9 amended: when the freshly generated identifier is not already a
key of the store, `create_order` replaces no existing entry — every order
previously stored, under any key, is still there afterwards. -/
theorem claim_create_no_overwrite_amended (db : Store) (fresh k : Uuid)
    (o : Order) (dto : CreateOrderDto)
    (hfresh : lookupAL db fresh = none) (hk : lookupAL db k = some o) :
    lookupAL (create_order db fresh dto).2 k = some o := by
  have hne : k ≠ fresh := fun hh => by rw [hh, hfresh] at hk; cases hk
  cases hval : dto.validate with
  | error e => simpa [create_order, hval] using hk
  | ok u =>
      cases u
      simp [create_order, hval, lookupAL_insertAL_ne db fresh k _ hne, hk]

theorem claim_create_no_overwrite_amended_witness :
    lookupAL (create_order
        [(1, { id := 1, customer := "Alice", items := ["A"],
               status := "pending" })]
        0 { customer := "Bob", items := ["B"] }).2 1
      = some { id := 1, customer := "Alice", items := ["A"],
               status := "pending" } :=
  claim_create_no_overwrite_amended
    [(1, { id := 1, customer := "Alice", items := ["A"],
           status := "pending" })]
    0 1 { id := 1, customer := "Alice", items := ["A"], status := "pending" }
    { customer := "Bob", items := ["B"] } (by decide) (by decide)

/-- C10: a `CreateOrderDto` whose customer has length at least one — even
a string of only whitespace — and whose items are non-empty passes
validation, and `create_order` returns and stores the customer string
verbatim, with no trimming or normalisation. -/
theorem claim_whitespace_customer_verbatim (db : Store) (fresh : Uuid)
    (dto : CreateOrderDto) (hc : 1 ≤ dto.customer.length)
    (hi : dto.items ≠ []) :
    dto.validate = .ok ()
    ∧ (create_order db fresh dto).1
        = .ok { id := fresh, customer := dto.customer, items := dto.items,
                status := "pending" }
    ∧ lookupAL (create_order db fresh dto).2 fresh
        = some { id := fresh, customer := dto.customer, items := dto.items,
                 status := "pending" } := by
  have hval : dto.validate = .ok () :=
    createValidate_ok_of dto hc (List.length_pos.mpr hi)
  refine ⟨hval, ?_, ?_⟩
  · simp [create_order, hval, OrderResponseDto.from]
  · simp [create_order, hval, lookupAL_insertAL_self]

theorem claim_whitespace_customer_verbatim_witness :
    CreateOrderDto.validate { customer := " ", items := ["A"] } = .ok ()
    ∧ (create_order [] 0 { customer := " ", items := ["A"] }).1
        = .ok { id := 0, customer := " ", items := ["A"], status := "pending" }
    ∧ lookupAL (create_order [] 0 { customer := " ", items := ["A"] }).2 0
        = some { id := 0, customer := " ", items := ["A"],
                 status := "pending" } :=
  claim_whitespace_customer_verbatim [] 0 { customer := " ", items := ["A"] }
    (by decide) (by decide)

end OrderService
